import Mathlib

/-!
Shallow embedding of the clustering pipeline of `lilac/data/clustering.py`
(module constants, `_snippet_to_prefix_and_suffix`, the retry policy of
`summarize_request` / `generate_category`, `_compute_titles`, the
validation and stage plan of `cluster_impl`, and `_hdbscan_cluster`).

Python floats (membership probabilities) are embedded as an abstract
linearly ordered type `P` with a zero; Python strings are embedded as
`String`, except character-level slicing which is embedded on `List Char`.
External numeric primitives (the embedding provider, UMAP, HDBSCAN) are
oracles supplied as function parameters, as the spec treats them as
black-box collaborators.
-/

namespace Lilac

/-- Constant `_SHORTEN_LEN = 400` from clustering.py. -/
def SHORTEN_LEN : Nat := 400

/-- Constant `MIN_CLUSTER_SIZE = 5` from clustering.py. -/
def MIN_CLUSTER_SIZE : Nat := 5

/-- Constant `UMAP_DIM = 5` from clustering.py. -/
def UMAP_DIM : Nat := 5

/-- Constant `UMAP_SEED = 42` from clustering.py. -/
def UMAP_SEED : Nat := 42

/-- Constant `HDBSCAN_SELECTION_EPS = 0.05` from clustering.py. -/
def HDBSCAN_SELECTION_EPS : ℚ := 0.05

/-- Constant `BATCH_SOFT_CLUSTER_NOISE = 1024` from clustering.py. -/
def BATCH_SOFT_CLUSTER_NOISE : Nat := 1024

/-- Constant `PATH_WILDCARD = '*'` from schema.py. -/
def PATH_WILDCARD : String := "*"

/-- Constant `FIELD_SUFFIX = 'cluster'` from clustering.py. -/
def FIELD_SUFFIX : String := "cluster"

/-- Model of Python `str.strip()` on the character-list embedding of a
string: remove leading and trailing whitespace characters. -/
def pyStrip (s : List Char) : List Char :=
  ((s.dropWhile Char.isWhitespace).reverse.dropWhile Char.isWhitespace).reverse

/-- The ellipsis marker string literal of `_snippet_to_prefix_and_suffix`,
as a character list: the Python literal is a newline, three dots, newline. -/
def ellipsisMarker : List Char :=
  ['\n', '.', '.', '.', '\n']

/-- Model of `_snippet_to_prefix_and_suffix` (clustering.py lines 79-84) on
the character-list embedding of Python strings.  Python slicing
`text[:prefix_len]` is `List.take prefix_len` and `text[-prefix_len:]`
(reached only when the length exceeds `prefix_len`) is
`List.drop (length - prefix_len)`. -/
def snippetToPrefixAndSuffix (text : List Char) : List Char :=
  let t := pyStrip text
  if t.length ≤ SHORTEN_LEN then t
  else
    let prefixLen := SHORTEN_LEN / 2
    t.take prefixLen ++ ellipsisMarker ++ t.drop (t.length - prefixLen)

/-- Auxiliary recursion for `npArgmax`: running best value, its index, and
the index of the next element. `np.argmax` keeps the first occurrence of
the maximum, hence the strict comparison. -/
def npArgmaxAux [LinearOrder P] (best : P) (bestIdx i : Nat) : List P → Nat
  | [] => bestIdx
  | x :: xs =>
    if best < x then npArgmaxAux x i (i + 1) xs else npArgmaxAux best bestIdx (i + 1) xs

/-- Model of `np.argmax` on a one-dimensional array: index of the first
occurrence of the maximum.  `np.argmax` raises on an empty array; the
embedding returns 0 there (unreachable in the modelled code paths). -/
def npArgmax [LinearOrder P] : List P → Nat
  | [] => 0
  | x :: xs => npArgmaxAux x 0 1 xs

/-- Model of `np.max` on a one-dimensional array: the maximum entry.
`np.max` raises on an empty array; the embedding returns the supplied
default there (unreachable in the modelled code paths). -/
def npMax [LinearOrder P] (dflt : P) : List P → P
  | [] => dflt
  | x :: xs => xs.foldl max x

/-- Model of `utils.chunks(items, size)`: split a list into consecutive
chunks of `n` elements (the final chunk may be shorter).  Meaningful for
`n ≥ 1`; the clustering code uses the fixed size 1024. -/
def chunksList (n : Nat) : List α → List (List α)
  | [] => []
  | x :: xs => (x :: xs.take (n - 1)) :: chunksList n (xs.drop (n - 1))
termination_by l => l.length
decreasing_by simp; omega

/-- The noise points of a clustering result, in index order: clustering.py
lines 510-513 collect `all_vectors[i]` for each `i` with
`clusterer.labels_[i] == -1`. -/
def noisyOf (vectors : List V) (labels : List Int) : List V :=
  (vectors.zip labels).filterMap fun p => if p.2 = -1 then some p.1 else none

/-- The in-place replacement loop of clustering.py lines 534-539: walk the
labels, and at each noise label (-1) substitute the next entry of the
computed noisy labels/probabilities, advancing `noise_index`.  The
fall-through branches model Python `IndexError` situations that cannot
arise when the replacement lists were built from the same labels; they
leave the remainder unchanged. -/
def replaceNoise [LinearOrder P] :
    List Int → List P → List Int → List P → List Int × List P
  | [], ms, _, _ => ([], ms)
  | l :: ls, [], _, _ => (l :: ls, [])
  | l :: ls, m :: ms, nls, nps =>
    if l = -1 then
      match nls, nps with
      | nl :: nls2, np :: nps2 =>
        let r := replaceNoise ls ms nls2 nps2
        (nl :: r.1, np :: r.2)
      | _, _ => (l :: ls, m :: ms)
    else
      let r := replaceNoise ls ms nls nps
      (l :: r.1, m :: r.2)

/-- Model of the noise-reassignment step of `_hdbscan_cluster`
(clustering.py lines 510-539).  `mv` embeds `membership_vector` against
the fitted model, applied per point (the numpy call is row-wise); the
1024-sized batching of the source is modelled by `chunksList`.  The
`ndim < 2` reshape of the source turns the one-cluster case into rows of
length one, which the per-point embedding already produces.  When the
noise count is zero or equals the total count the step is skipped and the
labels and membership probabilities pass through unchanged. -/
def reassignNoise [LinearOrder P] [Zero P]
    (mv : V → List P) (vectors : List V) (labels : List Int) (probs : List P) :
    List Int × List P :=
  let noisyVectors := noisyOf vectors labels
  let numNoisy := noisyVectors.length
  if 0 < numNoisy ∧ numNoisy < labels.length then
    let softRows := ((chunksList BATCH_SOFT_CLUSTER_NOISE noisyVectors).map
      (fun b => b.map mv)).flatten
    let noisyLabels := softRows.map fun r => (npArgmax r : Int)
    let noisyProbs := softRows.map (npMax 0)
    replaceNoise labels probs noisyLabels noisyProbs
  else (labels, probs)

/-- The hyperparameters passed to the UMAP reducer (clustering.py lines
481-487). -/
structure UMAPParams where
  n_components : Nat
  n_neighbors : Int
  min_dist : ℚ
  random_state : Nat
  deriving DecidableEq, Repr

/-- Model of the dimensionality-reduction gate of `_hdbscan_cluster`
(clustering.py lines 477-488): given the native embedding dimension and
the vector count, return the UMAP parameters when the reduction runs
(`UMAP_DIM < dim and UMAP_DIM < len(all_vectors)`), and `none` when it is
skipped.  `n_neighbors = min(30, len(all_vectors) - 1)` is computed with
Python integer arithmetic, hence over `Int`. -/
def umapStep (dim n : Nat) : Option UMAPParams :=
  let n_neighbors : Int := min 30 ((n : Int) - 1)
  if UMAP_DIM < dim ∧ UMAP_DIM < n then
    some { n_components := UMAP_DIM, n_neighbors := n_neighbors,
           min_dist := 0, random_state := UMAP_SEED }
  else none

/-- The hyperparameters passed to the HDBSCAN clusterer (clustering.py
lines 500-507). -/
structure HDBSCANParams where
  min_cluster_size : Nat
  min_samples : Int
  cluster_selection_epsilon : ℚ
  cluster_selection_method : String
  prediction_data : Bool
  deriving DecidableEq, Repr

/-- Model of the HDBSCAN configuration of `_hdbscan_cluster`
(clustering.py lines 500-507): `min_cluster_size = min(min_cluster_size,
len(all_vectors))`, `min_samples` one less (Python integer arithmetic,
hence `Int`), the fixed selection epsilon, the leaf selection method, and
prediction data enabled. -/
def hdbscanParams (minClusterSize n : Nat) : HDBSCANParams :=
  let mcs := min minClusterSize n
  { min_cluster_size := mcs
    min_samples := (mcs : Int) - 1
    cluster_selection_epsilon := HDBSCAN_SELECTION_EPS
    cluster_selection_method := "leaf"
    prediction_data := true }

/-- The exception classes distinguished by the retry decorators of
`summarize_request` and `generate_category` (clustering.py lines 108-112
and 158-162): `openai.RateLimitError`, `openai.APITimeoutError`, and any
other exception. -/
inductive LLMError
  | rateLimit
  | apiTimeout
  | other (name : String)
  deriving DecidableEq, Repr

/-- The `retry_if_exception_type((openai.RateLimitError,
openai.APITimeoutError))` predicate of both decorators. -/
def isRetryableLLMError : LLMError → Bool
  | LLMError.rateLimit => true
  | LLMError.apiTimeout => true
  | LLMError.other _ => false

/-- A retry configuration: the retry predicate, the
`wait_random_exponential` multiplier and cap, and the
`stop_after_attempt` bound. -/
structure RetryPolicy where
  retryOn : LLMError → Bool
  multiplier : ℚ
  maxWait : ℚ
  stopAttempts : Nat

/-- The retry decorator configuration of `summarize_request`
(clustering.py lines 108-112). -/
def summarizeRequestRetryPolicy : RetryPolicy :=
  { retryOn := isRetryableLLMError, multiplier := 0.5, maxWait := 60, stopAttempts := 10 }

/-- The retry decorator configuration of `generate_category`
(clustering.py lines 158-162); textually identical to the one of
`summarize_request`. -/
def generateCategoryRetryPolicy : RetryPolicy :=
  { retryOn := isRetryableLLMError, multiplier := 0.5, maxWait := 60, stopAttempts := 10 }

/-- Modelled from the spec: the `wait_random_exponential` strategy of the
tenacity library (not under src/) sleeps, after failed attempt number
`k`, a uniformly random fraction of `min(multiplier * 2 ** k, max)`;
`randomFrac` is the random draw in [0, 1]. -/
def waitRandomExponential (pol : RetryPolicy) (randomFrac : ℚ) (k : Nat) : ℚ :=
  randomFrac * min (pol.multiplier * 2 ^ k) pol.maxWait

/-- The observable behaviour of one decorated call: the final result (the
returned value, or the exception that escaped), the number of attempts
made, and the sleeps performed between consecutive attempts. -/
structure RetryTrace (α : Type) where
  result : Except LLMError α
  attempts : Nat
  waits : List ℚ

/-- Modelled from the spec: the retry loop of the tenacity `retry`
decorator (library code not under src/), running attempt `k` with `fuel`
attempts still allowed.  A success returns immediately; a failure the
policy does not retry on propagates immediately; a retryable failure
sleeps per `waitRandomExponential` and retries, unless the
`stop_after_attempt` budget is exhausted, in which case the last failure
escapes.  `outcomes k` is the result of the `k`-th call (1-based) and
`rand k` the random fraction drawn after it. -/
def runRetryAux (pol : RetryPolicy) (outcomes : Nat → Except LLMError α)
    (rand : Nat → ℚ) : Nat → Nat → RetryTrace α
  | _, 0 => { result := Except.error (LLMError.other "unreachable"), attempts := 0, waits := [] }
  | k, fuel + 1 =>
    match outcomes k with
    | Except.ok v => { result := Except.ok v, attempts := k, waits := [] }
    | Except.error e =>
      if pol.retryOn e then
        if fuel = 0 then { result := Except.error e, attempts := k, waits := [] }
        else
          let w := waitRandomExponential pol (rand k) k
          let t := runRetryAux pol outcomes rand (k + 1) fuel
          { result := t.result, attempts := t.attempts, waits := w :: t.waits }
      else { result := Except.error e, attempts := k, waits := [] }

/-- Run a retry policy from the first attempt with its full
`stop_after_attempt` budget. -/
def runRetry (pol : RetryPolicy) (outcomes : Nat → Except LLMError α)
    (rand : Nat → ℚ) : RetryTrace α :=
  runRetryAux pol outcomes rand 1 pol.stopAttempts

/-- One item reaching the grouping loop of `_compute_titles`
(clustering.py lines 186-231): the value under the text column
(`item.get(text_column)`, absent modelled as `none`), the cluster id
under the id column (present on every grouped item, since the grouping
key function indexes it), and the membership probability
(`item.get(membership_column, 0)`, with the default folded in).  The
`if not item` guard of the source skips falsy items, which cannot reach
the loop because the grouping key function would have raised on them. -/
structure TitleItem (P : Type) where
  text : Option String
  clusterId : Int
  membership : P
  deriving DecidableEq, Repr

/-- Dropping a prefix cannot lengthen a list (termination helper for the
run-splitting recursions below). -/
theorem dropWhile_length_le (p : α → Bool) : ∀ l : List α, (l.dropWhile p).length ≤ l.length
  | [] => Nat.le_refl 0
  | x :: xs => by
    by_cases h : p x
    · simp only [List.dropWhile, h]
      exact Nat.le_succ_of_le (dropWhile_length_le p xs)
    · simp [List.dropWhile, h]

/-- Model of `group_by_sorted_key_iter(items, lambda x: x[id_column])`:
split into maximal runs of consecutive items with equal cluster id. -/
def groupBySortedKey : List (TitleItem P) → List (List (TitleItem P))
  | [] => []
  | x :: xs =>
    (x :: xs.takeWhile (fun y => y.clusterId == x.clusterId)) ::
      groupBySortedKey (xs.dropWhile (fun y => y.clusterId == x.clusterId))
termination_by l => l.length
decreasing_by exact Nat.lt_succ_of_le (dropWhile_length_le _ _)

/-- The group that position `i` of the item list falls into under
`groupBySortedKey` (a derived accessor used to state per-position
properties of the grouping). -/
def groupOfIdx : List (TitleItem P) → Nat → List (TitleItem P)
  | [], _ => []
  | x :: xs, i =>
    if i < (x :: xs.takeWhile (fun y => y.clusterId == x.clusterId)).length then
      x :: xs.takeWhile (fun y => y.clusterId == x.clusterId)
    else
      groupOfIdx (xs.dropWhile (fun y => y.clusterId == x.clusterId))
        (i - (x :: xs.takeWhile (fun y => y.clusterId == x.clusterId)).length)
termination_by l => l.length
decreasing_by exact Nat.lt_succ_of_le (dropWhile_length_le _ _)

/-- The filtering loop of `_compute_titles` (clustering.py lines
204-216): drop items with a negative cluster id, a missing or empty
text, or a zero membership probability, and keep (text, membership)
pairs, in group order. -/
def rankedDocsFilter [LinearOrder P] [Zero P] (g : List (TitleItem P)) :
    List (String × P) :=
  g.filterMap fun item =>
    if item.clusterId < 0 then none
    else
      match item.text with
      | none => none
      | some t =>
        if t.isEmpty then none
        else if item.membership = 0 then none
        else some (t, item.membership)

/-- Stable insertion of a pair into a list sorted by strictly descending
second component (ties keep the existing element first, matching the
stability of Python `list.sort`). -/
def insertDescBySnd [LinearOrder P] (x : String × P) :
    List (String × P) → List (String × P)
  | [] => [x]
  | y :: ys => if y.2 < x.2 then x :: y :: ys else y :: insertDescBySnd x ys

/-- Stable sort by descending second component, modelling
`sorted_docs.sort(key=lambda text_score: text_score[1], reverse=True)`. -/
def sortDescBySnd [LinearOrder P] : List (String × P) → List (String × P)
  | [] => []
  | x :: xs => insertDescBySnd x (sortDescBySnd xs)

/-- The ranked document list of one group in `_compute_titles`
(clustering.py lines 203-221): filter, deduplicate (`list(set(...))`),
shuffle, then sort by membership descending.  The iteration orders of
`set` and `random.shuffle` are unspecified; the composite is embedded as
`List.dedup` followed by the stable descending sort, whose output agrees
with the source up to the order of equal-membership ties, on which no
proved property depends. -/
def rankedDocs [LinearOrder P] [Zero P] (g : List (TitleItem P)) :
    List (String × P) :=
  sortDescBySnd (rankedDocsFilter g).dedup

/-- Model of `_compute_titles` (clustering.py lines 186-231): group the
items by cluster id, compute one title per group (`None` when the
group's ranked document list is empty, per `_compute_title`, otherwise
the topic function applied to the ranked list), and yield the group's
title once per item of the group, in group order.  The joblib thread
pool of the source returns results in submission order (`return_as`
generator), so the sequential embedding preserves the yielded order. -/
def computeTitles [LinearOrder P] [Zero P]
    (topicFn : List (String × P) → String) (items : List (TitleItem P)) :
    List (Option String) :=
  ((groupBySortedKey items).map fun g =>
    let ranked := rankedDocs g
    let title := if ranked.isEmpty then none else some (topicFn ranked)
    List.replicate g.length title).flatten

/-- The dtype information `cluster_impl` reads from a schema field:
`field.dtype.type` when the field has a dtype, `none` when `field.dtype`
is `None`. -/
structure FieldInfo where
  dtypeType : Option String

/-- The schema introspection interface consumed by `cluster_impl`
(`dataset.manifest().data_schema`): membership and dtype lookup by path.
Paths are embedded as lists of path components. -/
structure DataSchema where
  has_field : List String → Bool
  get_field : List String → FieldInfo

/-- The `input_fn_or_path` argument of `cluster_impl`: a schema path, a
callable, or a `DatasetFormatInputSelector` (whose `selector` attribute
is a callable, identified here by name). -/
inductive ClusterInput
  | path (p : List String)
  | fn (name : String)
  | formatSelector (name : String)

/-- The `ValueError`s `cluster_impl` can raise before running any
pipeline stage (clustering.py lines 259, 262, 265, 283). -/
inductive ClusterError
  | pathNotFound (p : List String)
  | notStringField (p : List String)
  | outputPathRequired
  | inputRequired
  deriving DecidableEq, Repr

/-- A dataset read/write operation issued by a pipeline stage of
`cluster_impl`: the text-extraction `dataset.map` or one of the four
`dataset.transform` calls, tagged by stage name and output path. -/
inductive DatasetOp
  | map (outputPath : List String)
  | transform (stage : String) (outputPath : List String)
  deriving DecidableEq, Repr

/-- The index scan of clustering.py lines 272-277: `index` is the index
of the last component before the first wildcard (0 when the path starts
with a wildcard or is empty, the last index when there is no
wildcard). -/
def siblingIndex (p : List String) : Nat :=
  match p.findIdx? (fun s => s == PATH_WILDCARD) with
  | some 0 => 0
  | some (j + 1) => j
  | none => p.length - 1

/-- The sibling output path computation of clustering.py lines 271-281:
parent components up to the index, then the non-wildcard components from
the index on joined with underscores and suffixed with `__cluster`. -/
def siblingOutputPath (p : List String) : List String :=
  let idx := siblingIndex p
  let parent := p.take idx
  let sibling := String.intercalate "_" ((p.drop idx).filter (fun s => s ≠ PATH_WILDCARD))
  parent ++ [sibling ++ "__" ++ FIELD_SUFFIX]

/-- The five stage-gating checks and dataset operations of
`cluster_impl` (clustering.py lines 285-438), against the schema
captured once from the manifest: each stage runs when its target
sub-path is absent or the relevant overwrite/recompute flag is set.
Task-progress reporting is omitted (per the spec, absence of the task
collaborator does not change pipeline behaviour). -/
def stageOps (schema : DataSchema) (out : List String)
    (overwrite recomputeTitles : Bool) : List DatasetOp :=
  (if ¬ schema.has_field (out ++ ["text"]) ∨ overwrite
    then [DatasetOp.map out] else []) ++
  (if ¬ schema.has_field (out ++ ["cluster_id"]) ∨ overwrite
    then [DatasetOp.transform "compute_clusters" out] else []) ++
  (if ¬ schema.has_field (out ++ ["cluster_title"]) ∨ overwrite ∨ recomputeTitles
    then [DatasetOp.transform "compute_cluster_titles" out] else []) ++
  (if ¬ schema.has_field (out ++ ["category_id"]) ∨ overwrite ∨ recomputeTitles
    then [DatasetOp.transform "compute_category_clusters" out] else []) ++
  (if ¬ schema.has_field (out ++ ["category_title"]) ∨ overwrite ∨ recomputeTitles
    then [DatasetOp.transform "compute_category_titles" out] else [])

/-- Model of `cluster_impl` (clustering.py lines 234-441) up to the
dataset operations it issues: resolve a `DatasetFormatInputSelector` to
its callable selector, validate a non-callable input path against the
schema (existence, then string dtype), require an output path for a
callable input, compute the cluster output path (the user-provided one,
else the sibling path), and return it with the gated stage operations.
A `ValueError` aborts before any operation, hence the `Except`.  The
`input must be provided` branch of line 283 is unreachable here, as in
the source, because a callable input without an output path has already
raised. -/
def clusterImplPlan (schema : DataSchema) (input : ClusterInput)
    (outputPath : Option (List String)) (overwrite recomputeTitles : Bool) :
    Except ClusterError (List String × List DatasetOp) :=
  let input1 := match input with
    | ClusterInput.formatSelector n => ClusterInput.fn n
    | x => x
  match input1 with
  | ClusterInput.path p =>
    if ¬ schema.has_field p then Except.error (ClusterError.pathNotFound p)
    else
      match (schema.get_field p).dtypeType with
      | none => Except.error (ClusterError.notStringField p)
      | some t =>
        if t ≠ "string" then Except.error (ClusterError.notStringField p)
        else
          let out := match outputPath with
            | some op => op
            | none => siblingOutputPath p
          Except.ok (out, stageOps schema out overwrite recomputeTitles)
  | ClusterInput.fn _ =>
    match outputPath with
    | none => Except.error ClusterError.outputPathRequired
    | some op => Except.ok (op, stageOps schema op overwrite recomputeTitles)
  | ClusterInput.formatSelector _ =>
    match outputPath with
    | none => Except.error ClusterError.outputPathRequired
    | some op => Except.ok (op, stageOps schema op overwrite recomputeTitles)

/-- One item yielded by `_hdbscan_cluster`: a cluster id and a membership
probability (clustering.py lines 544-545). -/
structure ClusterResultItem (P : Type) where
  cluster_id : Int
  cluster_membership_prob : P
  deriving DecidableEq, Repr

/-- The observable processing steps of one `_hdbscan_cluster` run: the
compress-and-ship remote call, the embedding computation (with the
document list it receives), the UMAP reduction and HDBSCAN fit (with
their parameters), and the soft-membership computation for noise
points. -/
inductive PipelineStep
  | remoteCall
  | computeEmbeddings (docs : List String)
  | umapReduce (params : UMAPParams)
  | hdbscanFit (params : HDBSCANParams)
  | softMembership
  deriving DecidableEq, Repr

/-- How driving the `_hdbscan_cluster` generator to exhaustion ends:
normally, or with the `IndexError` raised by `all_vectors[0]` when the
embedded vector list is empty (clustering.py line 477). -/
inductive GenOutcome
  | finished
  | indexError
  deriving DecidableEq, Repr

/-- The result of `clusterer.fit` plus the `membership_vector` soft
clustering against the fitted model (black-box numeric primitives). -/
structure FitResult (V P : Type) where
  labels : List Int
  probabilities : List P
  membership_vector : V → List P

/-- The black-box numeric collaborators of `_hdbscan_cluster`: the
embedding provider (one vector per document), the native dimension lookup
(`all_vectors[0].size`), the UMAP reducer, and the HDBSCAN fit. -/
structure ClusterBackend (V P : Type) where
  embed : List String → List V
  dimOf : V → Nat
  reduce : UMAPParams → List V → List V
  fit : HDBSCANParams → List V → FitResult V P

/-- The trace of driving one `_hdbscan_cluster` generator to exhaustion:
the items it yielded, the processing steps it performed, and how it
ended. -/
structure GenTrace (P : Type) where
  yielded : List (ClusterResultItem P)
  steps : List PipelineStep
  outcome : GenOutcome

/-- Model of the local pipeline of `_hdbscan_cluster` (clustering.py
lines 456-545), entered with the items already yielded and steps already
performed (both empty in a local run): embed the documents, raise
`IndexError` at `all_vectors[0]` if no vectors result, otherwise gate
UMAP by `umapStep`, fit HDBSCAN with `hdbscanParams` over the possibly
reduced vectors, reassign noise via `reassignNoise`, and yield one
(cluster id, membership probability) item per position (`zip`
truncation as in the source). -/
def hdbscanClusterLocal [LinearOrder P] [Zero P] (B : ClusterBackend V P)
    (minClusterSize : Nat) (preYielded : List (ClusterResultItem P))
    (preSteps : List PipelineStep) (docs : List String) : GenTrace P :=
  let vectors := B.embed docs
  let steps1 := preSteps ++ [PipelineStep.computeEmbeddings docs]
  match vectors with
  | [] => { yielded := preYielded, steps := steps1, outcome := GenOutcome.indexError }
  | v0 :: _ =>
    let dim := B.dimOf v0
    let n := vectors.length
    let (vectors2, steps2) :=
      match umapStep dim n with
      | some prms => (B.reduce prms vectors, steps1 ++ [PipelineStep.umapReduce prms])
      | none => (vectors, steps1)
    let prms := hdbscanParams minClusterSize vectors2.length
    let fr := B.fit prms vectors2
    let steps3 := steps2 ++ [PipelineStep.hdbscanFit prms]
    let numNoisy := (noisyOf vectors2 fr.labels).length
    let res := reassignNoise fr.membership_vector vectors2 fr.labels fr.probabilities
    let steps4 := if 0 < numNoisy ∧ numNoisy < fr.labels.length
      then steps3 ++ [PipelineStep.softMembership] else steps3
    { yielded := preYielded ++ (res.1.zip res.2).map (fun q => ⟨q.1, q.2⟩)
      steps := steps4
      outcome := GenOutcome.finished }

/-- Model of the `_hdbscan_cluster` generator (clustering.py lines
444-545) driven to exhaustion.  In a remote run (lines 450-454) the
whole document list is consumed by `list(docs)`, compressed and shipped,
and the `clusters` field of the response (`remoteClusters`) is yielded;
the branch does not return, so execution falls through into the local
pipeline with the documents iterator already exhausted, i.e. with an
empty document list. -/
def hdbscanCluster [LinearOrder P] [Zero P] (B : ClusterBackend V P)
    (minClusterSize : Nat) (remote : Bool)
    (remoteClusters : List (ClusterResultItem P)) (docs : List String) :
    GenTrace P :=
  if remote then
    hdbscanClusterLocal B minClusterSize remoteClusters [PipelineStep.remoteCall] []
  else
    hdbscanClusterLocal B minClusterSize [] [] docs

/-- A concrete instantiation of the black-box numeric collaborators, used
to exercise the pipeline model on closed inputs: one zero vector per
document, native dimension 768, identity reduction, and a fit assigning
every point to cluster 0 with probability 1. -/
def testBackend : ClusterBackend Nat Int :=
  { embed := fun ds => ds.map (fun _ => 0)
    dimOf := fun _ => 768
    reduce := fun _ vs => vs
    fit := fun _ vs =>
      { labels := vs.map (fun _ => 0)
        probabilities := vs.map (fun _ => 1)
        membership_vector := fun _ => [1] } }

/-- A concrete schema containing no field at all. -/
def schemaEmpty : DataSchema :=
  { has_field := fun _ => false, get_field := fun _ => { dtypeType := none } }

/-- A concrete schema in which every path resolves to an `int64` field. -/
def schemaInt64 : DataSchema :=
  { has_field := fun _ => true, get_field := fun _ => { dtypeType := some "int64" } }

/-- A concrete soft-membership oracle for exercising the
noise-reassignment model on closed inputs. -/
def mvTest (v : Nat) : List Int := [(v : Int), 3]

/-- A concrete topic function for exercising the title-computation model
on closed inputs. -/
def topicFnTest (rs : List (String × Int)) : String :=
  match rs with
  | [] => "empty"
  | r :: _ => r.1

/-- Concrete items for exercising the title-computation model: a run of
two items in cluster 1 followed by one noise item (cluster id -1). -/
def titleItemsTest : List (TitleItem Int) :=
  [{ text := some "a", clusterId := 1, membership := 1 },
   { text := some "b", clusterId := 1, membership := 1 },
   { text := some "c", clusterId := -1, membership := 1 }]

/-- Mapping a function over the chunks of a list and flattening is
mapping it over the list: the 1024-sized batching of the soft-membership
computation does not change the per-point results. -/
theorem chunksList_map_flatten (f : α → β) (n : Nat) :
    ∀ l : List α, ((chunksList n l).map (List.map f)).flatten = l.map f
  | [] => by simp [chunksList]
  | x :: xs => by
    rw [chunksList]
    simp only [List.map_cons, List.flatten_cons]
    rw [chunksList_map_flatten f n (xs.drop (n - 1))]
    simp [← List.map_append, List.take_append_drop]
termination_by l => l.length
decreasing_by simp; omega

/-- The number of noise points collected by lines 510-513 equals the
number of -1 labels, when there is one vector per label. -/
theorem noisyOf_length (vectors : List V) (labels : List Int)
    (hv : vectors.length = labels.length) :
    (noisyOf vectors labels).length = labels.count (-1) := by
  induction labels generalizing vectors with
  | nil =>
    have : vectors = [] := List.eq_nil_of_length_eq_zero hv
    simp [this, noisyOf]
  | cons l ls ih =>
    match vectors, hv with
    | v :: vs, hv =>
      have hv2 : vs.length = ls.length := by simpa using hv
      by_cases hl : l = -1
      · simp [noisyOf, List.count_cons, hl, List.filterMap_cons] at *
        simpa [noisyOf] using ih vs hv2
      · simp only [noisyOf, List.zip_cons_cons, List.filterMap_cons, if_neg hl,
          List.count_cons]
        simp only [noisyOf] at ih
        rw [ih vs hv2]
        simp [hl]

/-- C3: when the number of noise points is zero or equals the total
number of points, the noise-reassignment step of `_hdbscan_cluster` is
skipped and leaves every cluster id and membership probability exactly
as produced by the density clustering. -/
theorem reassign_noise_identity [LinearOrder P] [Zero P]
    (mv : V → List P) (vectors : List V) (labels : List Int) (probs : List P)
    (hv : vectors.length = labels.length)
    (h : labels.count (-1) = 0 ∨ labels.count (-1) = labels.length) :
    reassignNoise mv vectors labels probs = (labels, probs) := by
  unfold reassignNoise
  rw [if_neg]
  rw [noisyOf_length vectors labels hv]
  rcases h with h | h
  · omega
  · omega

/-- C3 witness: a run with no noise points passes through unchanged. -/
theorem reassign_noise_identity_witness :
    reassignNoise mvTest [10, 20] [0, 1] [7, 8] = ([0, 1], [7, 8]) :=
  reassign_noise_identity mvTest [10, 20] [0, 1] [7, 8] rfl (Or.inl (by decide))

/-- C6: `_snippet_to_prefix_and_suffix` first strips surrounding
whitespace; when the stripped text has at most 400 characters it is
returned unchanged, and otherwise the result is its first 200
characters, the ellipsis marker (newline, three dots, newline), and its
last 200 characters, preserving both ends of a long document. -/
theorem snippet_to_prefix_and_suffix_spec (text : List Char) :
    snippetToPrefixAndSuffix text =
      if (pyStrip text).length ≤ 400 then pyStrip text
      else (pyStrip text).take 200 ++ ('\n' :: '.' :: '.' :: '.' :: ['\n']) ++
        ((pyStrip text).reverse.take 200).reverse := by
  unfold snippetToPrefixAndSuffix ellipsisMarker SHORTEN_LEN
  by_cases h : (pyStrip text).length ≤ 400
  · simp [h]
  · simp only [if_neg h]
    have h2 : (pyStrip text).rtake (400 / 2) =
        ((pyStrip text).reverse.take (400 / 2)).reverse :=
      List.rtake_eq_reverse_take_reverse _ _
    unfold List.rtake at h2
    rw [h2]

/-- C10: when the cluster input is a callable, or a
`DatasetFormatInputSelector` (whose selector is a callable), and no
output path is provided, `cluster_impl` raises the `ValueError`
"output_path must be provided if input is a function." before issuing
any dataset operation (the plan is an error, so no stage runs). -/
theorem cluster_impl_output_path_required (schema : DataSchema) (n : String)
    (overwrite recomputeTitles : Bool) :
    clusterImplPlan schema (ClusterInput.fn n) none overwrite recomputeTitles =
      Except.error ClusterError.outputPathRequired ∧
    clusterImplPlan schema (ClusterInput.formatSelector n) none overwrite recomputeTitles =
      Except.error ClusterError.outputPathRequired :=
  ⟨rfl, rfl⟩

/-- C9: for a non-callable input path, `cluster_impl` raises a
`ValueError` before issuing any dataset operation when the path is
absent from the schema, and likewise when the path exists but its field
does not have string dtype. -/
theorem cluster_impl_path_validation (schema : DataSchema) (p : List String)
    (outputPath : Option (List String)) (overwrite recomputeTitles : Bool) :
    (schema.has_field p = false →
      clusterImplPlan schema (ClusterInput.path p) outputPath overwrite recomputeTitles =
        Except.error (ClusterError.pathNotFound p)) ∧
    (schema.has_field p = true →
      (schema.get_field p).dtypeType ≠ some "string" →
      clusterImplPlan schema (ClusterInput.path p) outputPath overwrite recomputeTitles =
        Except.error (ClusterError.notStringField p)) := by
  constructor
  · intro h
    simp [clusterImplPlan, h]
  · intro h hdt
    unfold clusterImplPlan
    simp only [h]
    match hdt2 : (schema.get_field p).dtypeType with
    | none => simp
    | some t =>
      have ht : t ≠ "string" := by
        intro he
        exact hdt (by rw [hdt2, he])
      simp [ht]

/-- C9 witness: a missing path and an `int64`-typed path are both
rejected up front. -/
theorem cluster_impl_path_validation_witness :
    clusterImplPlan schemaEmpty (ClusterInput.path ["x"]) none false false =
      Except.error (ClusterError.pathNotFound ["x"]) ∧
    clusterImplPlan schemaInt64 (ClusterInput.path ["x"]) none false false =
      Except.error (ClusterError.notStringField ["x"]) :=
  ⟨(cluster_impl_path_validation schemaEmpty ["x"] none false false).1 rfl,
   (cluster_impl_path_validation schemaInt64 ["x"] none false false).2 rfl (by decide)⟩

/-- C1 does not hold of the code: in a remote run, after yielding the
entries of the response's `clusters` field, the `_hdbscan_cluster`
generator does not stop — the remote branch lacks a return, so driving
the generator on resumes the local pipeline, which performs the
embedding computation on the exhausted documents iterator (an empty
list) and then raises `IndexError` at `all_vectors[0]`.  Evaluated here
on a concrete one-document input. -/
theorem remote_branch_falls_through :
    (hdbscanCluster testBackend 5 true [{ cluster_id := 0, cluster_membership_prob := 1 }]
        ["a"]).yielded = [{ cluster_id := 0, cluster_membership_prob := 1 }] ∧
    PipelineStep.computeEmbeddings [] ∈
      (hdbscanCluster testBackend 5 true [{ cluster_id := 0, cluster_membership_prob := 1 }]
        ["a"]).steps ∧
    (hdbscanCluster testBackend 5 true [{ cluster_id := 0, cluster_membership_prob := 1 }]
        ["a"]).outcome = GenOutcome.indexError := by
  refine ⟨rfl, ?_, rfl⟩
  simp [hdbscanCluster, hdbscanClusterLocal, testBackend]

/-- Characterization of `umapStep` succeeding: the gate condition holds
and the parameters are the fixed ones of the source. -/
theorem umapStep_eq_some_iff {dim n : Nat} {prms : UMAPParams} :
    umapStep dim n = some prms ↔
      (5 < dim ∧ 5 < n) ∧
        prms = { n_components := 5, n_neighbors := min 30 ((n : Int) - 1),
                 min_dist := 0, random_state := 42 } := by
  unfold umapStep UMAP_DIM UMAP_SEED
  by_cases h : 5 < dim ∧ 5 < n
  · simp only [if_pos h, Option.some_inj]
    constructor
    · intro he
      exact ⟨h, he.symm⟩
    · intro he
      exact he.2.symm
  · simp [if_neg h, h]

/-- Characterization of `umapStep` being skipped: the gate condition
fails. -/
theorem umapStep_eq_none_iff {dim n : Nat} :
    umapStep dim n = none ↔ ¬(5 < dim ∧ 5 < n) := by
  unfold umapStep UMAP_DIM UMAP_SEED
  by_cases h : 5 < dim ∧ 5 < n
  · simp [if_pos h, h]
  · simp [if_neg h, h]

/-- Shape of the step trace of a local `_hdbscan_cluster` run whose
embedding call returns at least one vector: the embedding step, an
optional UMAP step governed by `umapStep`, the HDBSCAN fit with the
parameters of `hdbscanParams` over the (possibly reduced) vector count,
and an optional soft-membership step. -/
theorem hdbscanClusterLocal_steps_eq [LinearOrder P] [Zero P]
    (B : ClusterBackend V P) (m : Nat) (py : List (ClusterResultItem P))
    (ps : List PipelineStep) (docs : List String) (v0 : V) (vs : List V)
    (hemb : B.embed docs = v0 :: vs) :
    ∃ mid tail : List PipelineStep, ∃ n2 : Nat,
      (hdbscanClusterLocal B m py ps docs).steps =
        ps ++ [PipelineStep.computeEmbeddings docs] ++ mid ++
          [PipelineStep.hdbscanFit (hdbscanParams m n2)] ++ tail ∧
      (tail = [] ∨ tail = [PipelineStep.softMembership]) ∧
      ((umapStep (B.dimOf v0) (v0 :: vs).length = none ∧ mid = [] ∧
          n2 = (v0 :: vs).length) ∨
       (∃ prms, umapStep (B.dimOf v0) (v0 :: vs).length = some prms ∧
          mid = [PipelineStep.umapReduce prms] ∧
          n2 = (B.reduce prms (v0 :: vs)).length)) := by
  unfold hdbscanClusterLocal
  rw [hemb]
  dsimp only
  cases hu : umapStep (B.dimOf v0) (v0 :: vs).length with
  | none =>
    dsimp only
    split
    · exact ⟨[], [PipelineStep.softMembership], (v0 :: vs).length, by simp,
        Or.inr rfl, Or.inl ⟨rfl, rfl, rfl⟩⟩
    · exact ⟨[], [], (v0 :: vs).length, by simp, Or.inl rfl, Or.inl ⟨rfl, rfl, rfl⟩⟩
  | some prms =>
    dsimp only
    split
    · exact ⟨[PipelineStep.umapReduce prms], [PipelineStep.softMembership],
        (B.reduce prms (v0 :: vs)).length, by simp, Or.inr rfl,
        Or.inr ⟨prms, rfl, rfl, rfl⟩⟩
    · exact ⟨[PipelineStep.umapReduce prms], [],
        (B.reduce prms (v0 :: vs)).length, by simp, Or.inl rfl,
        Or.inr ⟨prms, rfl, rfl, rfl⟩⟩

/-- C7: a local `_hdbscan_cluster` run applies the UMAP reduction if and
only if the target dimension 5 is strictly smaller than both the native
embedding dimension and the input count, and when it does, it uses
`n_neighbors = min(30, N - 1)` and the fixed random seed 42. -/
theorem umap_reduction_gating [LinearOrder P] [Zero P] (B : ClusterBackend V P)
    (m : Nat) (docs : List String) (v0 : V) (vs : List V)
    (hemb : B.embed docs = v0 :: vs)
    (hlen : (B.embed docs).length = docs.length) :
    ((∃ prms, PipelineStep.umapReduce prms ∈
        (hdbscanCluster B m false [] docs).steps) ↔
      (5 < B.dimOf v0 ∧ 5 < docs.length)) ∧
    (∀ prms, PipelineStep.umapReduce prms ∈
        (hdbscanCluster B m false [] docs).steps →
      prms.n_components = 5 ∧ prms.n_neighbors = min 30 ((docs.length : Int) - 1) ∧
      prms.random_state = 42) := by
  have hn : (v0 :: vs).length = docs.length := by rw [← hemb]; exact hlen
  have hloc : hdbscanCluster B m false [] docs = hdbscanClusterLocal B m [] [] docs := rfl
  rw [hloc]
  obtain ⟨mid, tail, n2, hsteps, htail, hcase⟩ :=
    hdbscanClusterLocal_steps_eq B m [] [] docs v0 vs hemb
  rw [hsteps]
  have hmem : ∀ prms, (PipelineStep.umapReduce prms ∈
      ([] : List PipelineStep) ++ [PipelineStep.computeEmbeddings docs] ++ mid ++
        [PipelineStep.hdbscanFit (hdbscanParams m n2)] ++ tail) ↔
      PipelineStep.umapReduce prms ∈ mid := by
    intro prms
    rcases htail with h | h <;> subst h <;> simp
  refine ⟨⟨?_, ?_⟩, ?_⟩
  · rintro ⟨prms, hp⟩
    rw [hmem] at hp
    rcases hcase with ⟨hnone, hmid, _⟩ | ⟨prms2, hsome, hmid, _⟩
    · subst hmid; simp at hp
    · obtain ⟨hcond, _⟩ := umapStep_eq_some_iff.mp hsome
      rw [hn] at hcond
      exact hcond
  · intro hcond
    rcases hcase with ⟨hnone, hmid, _⟩ | ⟨prms2, hsome, hmid, _⟩
    · exfalso
      have := umapStep_eq_none_iff.mp hnone
      rw [hn] at this
      exact this hcond
    · refine ⟨prms2, (hmem prms2).mpr ?_⟩
      subst hmid
      simp
  · intro prms hp
    rw [hmem] at hp
    rcases hcase with ⟨hnone, hmid, _⟩ | ⟨prms2, hsome, hmid, _⟩
    · subst hmid; simp at hp
    · subst hmid
      simp at hp
      subst hp
      obtain ⟨_, hpr⟩ := umapStep_eq_some_iff.mp hsome
      rw [hpr]
      refine ⟨rfl, ?_, rfl⟩
      show min 30 (((v0 :: vs).length : Int) - 1) = min 30 ((docs.length : Int) - 1)
      rw [hn]

/-- C7 witness: six documents with native dimension 768 trigger the
reduction with its fixed parameters. -/
theorem umap_reduction_gating_witness :
    ((∃ prms, PipelineStep.umapReduce prms ∈
        (hdbscanCluster testBackend 5 false [] ["a", "b", "c", "d", "e", "f"]).steps) ↔
      (5 < testBackend.dimOf 0 ∧
        5 < (["a", "b", "c", "d", "e", "f"] : List String).length)) ∧
    (∀ prms, PipelineStep.umapReduce prms ∈
        (hdbscanCluster testBackend 5 false [] ["a", "b", "c", "d", "e", "f"]).steps →
      prms.n_components = 5 ∧
      prms.n_neighbors =
        min 30 (((["a", "b", "c", "d", "e", "f"] : List String).length : Int) - 1) ∧
      prms.random_state = 42) :=
  umap_reduction_gating testBackend 5 ["a", "b", "c", "d", "e", "f"] 0
    [0, 0, 0, 0, 0] rfl rfl

/-- C8: a local `_hdbscan_cluster` run fits the density clusterer with
`min_cluster_size = min(m, N)`, `min_samples = min(m, N) - 1`,
`cluster_selection_epsilon = 0.05`, the leaf selection method, and
prediction data enabled. -/
theorem hdbscan_fit_params [LinearOrder P] [Zero P] (B : ClusterBackend V P)
    (m : Nat) (docs : List String) (v0 : V) (vs : List V)
    (hemb : B.embed docs = v0 :: vs)
    (hlen : (B.embed docs).length = docs.length)
    (hred : ∀ prms vecs, (B.reduce prms vecs).length = vecs.length) :
    (∃ prms, PipelineStep.hdbscanFit prms ∈
      (hdbscanCluster B m false [] docs).steps) ∧
    (∀ prms, PipelineStep.hdbscanFit prms ∈
        (hdbscanCluster B m false [] docs).steps →
      prms.min_cluster_size = min m docs.length ∧
      prms.min_samples = (min m docs.length : Int) - 1 ∧
      prms.cluster_selection_epsilon = 1 / 20 ∧
      prms.cluster_selection_method = "leaf" ∧
      prms.prediction_data = true) := by
  have hn : (v0 :: vs).length = docs.length := by rw [← hemb]; exact hlen
  have hloc : hdbscanCluster B m false [] docs = hdbscanClusterLocal B m [] [] docs := rfl
  rw [hloc]
  obtain ⟨mid, tail, n2, hsteps, htail, hcase⟩ :=
    hdbscanClusterLocal_steps_eq B m [] [] docs v0 vs hemb
  have hn2 : n2 = docs.length := by
    rcases hcase with ⟨_, _, h⟩ | ⟨prms2, _, _, h⟩
    · rw [h, hn]
    · rw [h, hred, hn]
  rw [hsteps]
  have hmemf : ∀ prms, (PipelineStep.hdbscanFit prms ∈
      ([] : List PipelineStep) ++ [PipelineStep.computeEmbeddings docs] ++ mid ++
        [PipelineStep.hdbscanFit (hdbscanParams m n2)] ++ tail) ↔
      prms = hdbscanParams m n2 := by
    intro prms
    rcases htail with h | h <;>
      rcases hcase with ⟨_, hmid, _⟩ | ⟨p2, _, hmid, _⟩ <;>
      subst h <;> subst hmid <;> simp [eq_comm]
  constructor
  · exact ⟨hdbscanParams m n2, (hmemf _).mpr rfl⟩
  · intro prms hp
    rw [hmemf] at hp
    subst hp
    rw [hn2]
    unfold hdbscanParams HDBSCAN_SELECTION_EPS
    refine ⟨rfl, ?_, by norm_num, rfl, rfl⟩
    simp [Nat.cast_min]

/-- C8 witness: six documents with configured minimum cluster size 4. -/
theorem hdbscan_fit_params_witness :
    (∃ prms, PipelineStep.hdbscanFit prms ∈
      (hdbscanCluster testBackend 4 false [] ["a", "b", "c", "d", "e", "f"]).steps) ∧
    (∀ prms, PipelineStep.hdbscanFit prms ∈
        (hdbscanCluster testBackend 4 false [] ["a", "b", "c", "d", "e", "f"]).steps →
      prms.min_cluster_size = min 4 (["a", "b", "c", "d", "e", "f"] : List String).length ∧
      prms.min_samples =
        (min 4 (["a", "b", "c", "d", "e", "f"] : List String).length : Int) - 1 ∧
      prms.cluster_selection_epsilon = 1 / 20 ∧
      prms.cluster_selection_method = "leaf" ∧
      prms.prediction_data = true) :=
  hdbscan_fit_params testBackend 4 ["a", "b", "c", "d", "e", "f"] 0
    [0, 0, 0, 0, 0] rfl rfl (fun _ _ => rfl)

/-- Unfolding of the replacement loop at a noise label: the head of the
computed noisy labels/probabilities is substituted and the loop advances
on the tails. -/
theorem replaceNoise_cons_noise [LinearOrder P] (ls : List Int) (m : P) (ms : List P)
    (nl : Int) (nls : List Int) (np : P) (nps : List P) :
    replaceNoise (-1 :: ls) (m :: ms) (nl :: nls) (np :: nps) =
      (nl :: (replaceNoise ls ms nls nps).1, np :: (replaceNoise ls ms nls nps).2) := by
  simp [replaceNoise]

/-- Unfolding of the replacement loop at a non-noise label: the label and
probability pass through and the noisy lists are not consumed. -/
theorem replaceNoise_cons_keep [LinearOrder P] (l : Int) (hl : l ≠ -1)
    (ls : List Int) (m : P) (ms : List P) (nls : List Int) (nps : List P) :
    replaceNoise (l :: ls) (m :: ms) nls nps =
      (l :: (replaceNoise ls ms nls nps).1, m :: (replaceNoise ls ms nls nps).2) := by
  simp [replaceNoise, hl]

/-- Pointwise description of the replacement loop when fed the argmax
labels and max probabilities of the noise points, in noise order: at a
noise position the argmax/max of that point's soft-membership row is
installed, elsewhere the original label and probability survive. -/
theorem replaceNoise_getD [LinearOrder P] [Zero P] [Inhabited V]
    (mv : V → List P) (ls : List Int) :
    ∀ (vs : List V) (ms : List P), vs.length = ls.length → ms.length = ls.length →
    ∀ i, i < ls.length →
      ((replaceNoise ls ms ((noisyOf vs ls).map (fun v => (npArgmax (mv v) : Int)))
          ((noisyOf vs ls).map (fun v => npMax 0 (mv v)))).1.getD i 0 =
        (if ls.getD i 0 = -1 then (npArgmax (mv (vs.getD i default)) : Int)
         else ls.getD i 0)) ∧
      ((replaceNoise ls ms ((noisyOf vs ls).map (fun v => (npArgmax (mv v) : Int)))
          ((noisyOf vs ls).map (fun v => npMax 0 (mv v)))).2.getD i 0 =
        (if ls.getD i 0 = -1 then npMax 0 (mv (vs.getD i default))
         else ms.getD i 0)) := by
  induction ls with
  | nil =>
    intro vs ms hv hm i hi
    simp at hi
  | cons l ls ih =>
    intro vs ms hv hm i hi
    cases vs with
    | nil => simp at hv
    | cons v vs2 =>
      cases ms with
      | nil => simp at hm
      | cons m ms2 =>
        have hv2 : vs2.length = ls.length := by simpa using hv
        have hm2 : ms2.length = ls.length := by simpa using hm
        by_cases hl : l = -1
        · subst hl
          have hno : noisyOf (v :: vs2) (-1 :: ls) = v :: noisyOf vs2 ls := by
            simp [noisyOf]
          rw [hno]
          simp only [List.map_cons]
          rw [replaceNoise_cons_noise]
          cases i with
          | zero => simp
          | succ j =>
            have hj : j < ls.length := by
              simp at hi
              omega
            simpa using ih vs2 ms2 hv2 hm2 j hj
        · have hno : noisyOf (v :: vs2) (l :: ls) = noisyOf vs2 ls := by
            simp [noisyOf, hl]
          rw [hno]
          rw [replaceNoise_cons_keep l hl]
          cases i with
          | zero => simp [hl]
          | succ j =>
            have hj : j < ls.length := by
              simp at hi
              omega
            simpa using ih vs2 ms2 hv2 hm2 j hj

/-- C2: in a run where at least one point is noise and at least one is
not, each noise point's final cluster id equals the argmax over its
soft-cluster membership vector and its final membership probability
equals the maximum entry of that same vector. -/
theorem reassign_noise_argmax [LinearOrder P] [Zero P] [Inhabited V]
    (mv : V → List P) (vectors : List V) (labels : List Int) (probs : List P)
    (hv : vectors.length = labels.length) (hm : probs.length = labels.length)
    (h0 : 0 < labels.count (-1)) (h1 : labels.count (-1) < labels.length)
    (i : Nat) (hi : i < labels.length) (hnoise : labels.getD i 0 = -1) :
    (reassignNoise mv vectors labels probs).1.getD i 0 =
      (npArgmax (mv (vectors.getD i default)) : Int) ∧
    (reassignNoise mv vectors labels probs).2.getD i 0 =
      npMax 0 (mv (vectors.getD i default)) := by
  have hcond : 0 < (noisyOf vectors labels).length ∧
      (noisyOf vectors labels).length < labels.length := by
    rw [noisyOf_length _ _ hv]
    exact ⟨h0, h1⟩
  have hmain := replaceNoise_getD mv labels vectors probs hv hm i hi
  rw [hnoise] at hmain
  simp only [if_pos rfl] at hmain
  unfold reassignNoise
  rw [if_pos hcond]
  rw [chunksList_map_flatten]
  simp only [if_true] at hmain
  dsimp only
  rw [List.map_map, List.map_map]
  simpa [Function.comp] using hmain

/-- C2 witness: two points, the first of which is noise; its label
becomes the argmax of its soft row and its probability the row
maximum. -/
theorem reassign_noise_argmax_witness :
    (reassignNoise mvTest [10, 20] [-1, 0] [7, 8]).1.getD 0 0 =
      (npArgmax (mvTest ((10 : Nat) :: [20]).headI) : Int) ∧
    (reassignNoise mvTest [10, 20] [-1, 0] [7, 8]).2.getD 0 0 =
      npMax 0 (mvTest ((10 : Nat) :: [20]).headI) := by
  have h := reassign_noise_argmax mvTest [10, 20] [-1, 0] [7, 8] rfl rfl
    (by decide) (by decide) 0 (by decide) rfl
  simpa using h

/-- The retry loop makes its first attempt and stops within its fuel
budget: attempt numbers range from the starting attempt to the budget
edge. -/
theorem runRetryAux_attempts_range (pol : RetryPolicy)
    (outcomes : Nat → Except LLMError α) (rand : Nat → ℚ) :
    ∀ fuel k, 1 ≤ fuel →
      k ≤ (runRetryAux pol outcomes rand k fuel).attempts ∧
      (runRetryAux pol outcomes rand k fuel).attempts ≤ k + (fuel - 1) := by
  intro fuel
  induction fuel with
  | zero => intro k hk; omega
  | succ f ih =>
    intro k _
    cases houtk : outcomes k with
    | ok v => simp [runRetryAux, houtk]
    | error e =>
      cases hr : pol.retryOn e with
      | false => simp [runRetryAux, houtk, hr]
      | true =>
        by_cases hf : f = 0
        · subst hf
          simp [runRetryAux, houtk, hr]
        · have hf1 : 1 ≤ f := by omega
          obtain ⟨h1, h2⟩ := ih (k + 1) hf1
          simp only [runRetryAux, houtk, hr, if_true, if_neg hf]
          constructor
          · omega
          · omega

/-- One sleep separates consecutive attempts: the number of waits plus
the starting attempt number equals the final attempt number. -/
theorem runRetryAux_waits_length (pol : RetryPolicy)
    (outcomes : Nat → Except LLMError α) (rand : Nat → ℚ) :
    ∀ fuel k, 1 ≤ fuel →
      (runRetryAux pol outcomes rand k fuel).waits.length + k =
        (runRetryAux pol outcomes rand k fuel).attempts := by
  intro fuel
  induction fuel with
  | zero => intro k hk; omega
  | succ f ih =>
    intro k _
    cases houtk : outcomes k with
    | ok v => simp [runRetryAux, houtk]
    | error e =>
      cases hr : pol.retryOn e with
      | false => simp [runRetryAux, houtk, hr]
      | true =>
        by_cases hf : f = 0
        · subst hf
          simp [runRetryAux, houtk, hr]
        · have := ih (k + 1) (by omega)
          simp only [runRetryAux, houtk, hr, if_true, if_neg hf, List.length_cons]
          omega

/-- Every attempt strictly before the final one failed with an error the
policy retries on. -/
theorem runRetryAux_earlier_retryable (pol : RetryPolicy)
    (outcomes : Nat → Except LLMError α) (rand : Nat → ℚ) :
    ∀ fuel k j, k ≤ j → j < (runRetryAux pol outcomes rand k fuel).attempts →
      ∃ e, outcomes j = Except.error e ∧ pol.retryOn e = true := by
  intro fuel
  induction fuel with
  | zero =>
    intro k j hkj hj
    simp [runRetryAux] at hj
  | succ f ih =>
    intro k j hkj hj
    cases houtk : outcomes k with
    | ok v =>
      simp [runRetryAux, houtk] at hj
      omega
    | error e =>
      cases hr : pol.retryOn e with
      | false =>
        simp [runRetryAux, houtk, hr] at hj
        omega
      | true =>
        by_cases hf : f = 0
        · subst hf
          simp [runRetryAux, houtk, hr] at hj
          omega
        · simp only [runRetryAux, houtk, hr, if_true, if_neg hf] at hj
          by_cases hjk : j = k
          · subst hjk
            exact ⟨e, houtk, hr⟩
          · exact ih (k + 1) j (by omega) hj

/-- A failure the policy does not retry on propagates at once: if every
attempt before `j` failed retryably and attempt `j` fails
non-retryably, the loop ends at attempt `j` with that error. -/
theorem runRetryAux_propagates (pol : RetryPolicy)
    (outcomes : Nat → Except LLMError α) (rand : Nat → ℚ) :
    ∀ fuel k j e, 1 ≤ fuel → k ≤ j → j ≤ k + (fuel - 1) →
      (∀ m2, k ≤ m2 → m2 < j →
        ∃ e2, outcomes m2 = Except.error e2 ∧ pol.retryOn e2 = true) →
      outcomes j = Except.error e → pol.retryOn e = false →
      (runRetryAux pol outcomes rand k fuel).result = Except.error e ∧
        (runRetryAux pol outcomes rand k fuel).attempts = j := by
  intro fuel
  induction fuel with
  | zero => intro k j e hfu; omega
  | succ f ih =>
    intro k j e _ hkj hjb hearlier houtj hnr
    by_cases hjk : j = k
    · subst hjk
      simp [runRetryAux, houtj, hnr]
    · obtain ⟨e2, houtk, hr2⟩ := hearlier k (Nat.le_refl k) (by omega)
      have hf : f ≠ 0 := by omega
      simp only [runRetryAux, houtk, hr2, if_true, if_neg hf]
      exact ih (k + 1) j e (by omega) (by omega) (by omega)
        (fun m2 h1 h2 => hearlier m2 (by omega) h2) houtj hnr

/-- Each recorded sleep is exactly the random-exponential wait for the
attempt it follows. -/
theorem runRetryAux_waits_getD (pol : RetryPolicy)
    (outcomes : Nat → Except LLMError α) (rand : Nat → ℚ) :
    ∀ fuel k i, i < (runRetryAux pol outcomes rand k fuel).waits.length →
      (runRetryAux pol outcomes rand k fuel).waits.getD i 0 =
        waitRandomExponential pol (rand (k + i)) (k + i) := by
  intro fuel
  induction fuel with
  | zero =>
    intro k i hi
    simp [runRetryAux] at hi
  | succ f ih =>
    intro k i hi
    cases houtk : outcomes k with
    | ok v => simp [runRetryAux, houtk] at hi
    | error e =>
      cases hr : pol.retryOn e with
      | false => simp [runRetryAux, houtk, hr] at hi
      | true =>
        by_cases hf : f = 0
        · subst hf
          simp [runRetryAux, houtk, hr] at hi
        · simp only [runRetryAux, houtk, hr, if_true, if_neg hf, List.length_cons] at hi
          simp only [runRetryAux, houtk, hr, if_true, if_neg hf]
          cases i with
          | zero => simp
          | succ i2 =>
            have hrec := ih (k + 1) i2 (by omega)
            simp only [List.getD_cons_succ]
            rw [hrec]
            have hadd : k + 1 + i2 = k + (i2 + 1) := by omega
            rw [hadd]

/-- C4: `summarize_request` and `generate_category` retry the request
only on rate-limit or timeout failures, sleep a random-exponential
backoff with base multiplier 0.5 and cap 60 between consecutive
attempts, stop after at most 10 attempts, and propagate any other
exception immediately. -/
theorem retry_policy_contract (outcomes : Nat → Except LLMError α)
    (rand : Nat → ℚ) (hrand : ∀ k, 0 ≤ rand k ∧ rand k ≤ 1) :
    ∀ pol, (pol = summarizeRequestRetryPolicy ∨ pol = generateCategoryRetryPolicy) →
      (runRetry pol outcomes rand).attempts ≤ 10 ∧
      (runRetry pol outcomes rand).waits.length + 1 =
        (runRetry pol outcomes rand).attempts ∧
      (∀ k, 1 ≤ k → k < (runRetry pol outcomes rand).attempts →
        ∃ e, outcomes k = Except.error e ∧ isRetryableLLMError e = true) ∧
      (∀ k e, 1 ≤ k → k ≤ 10 →
        (∀ j, 1 ≤ j → j < k →
          ∃ e2, outcomes j = Except.error e2 ∧ isRetryableLLMError e2 = true) →
        outcomes k = Except.error e → isRetryableLLMError e = false →
        (runRetry pol outcomes rand).result = Except.error e ∧
          (runRetry pol outcomes rand).attempts = k) ∧
      (∀ i, i < (runRetry pol outcomes rand).waits.length →
        0 ≤ (runRetry pol outcomes rand).waits.getD i 0 ∧
        (runRetry pol outcomes rand).waits.getD i 0 ≤
          min ((1 / 2) * 2 ^ (i + 1)) 60) := by
  intro pol hpol
  have hpol2 : pol = summarizeRequestRetryPolicy := by
    rcases hpol with h | h
    · exact h
    · rw [h]
      rfl
  subst hpol2
  have hstop : summarizeRequestRetryPolicy.stopAttempts = 10 := rfl
  refine ⟨?_, ?_, ?_, ?_, ?_⟩
  · have := (runRetryAux_attempts_range summarizeRequestRetryPolicy outcomes rand 10 1
      (by omega)).2
    unfold runRetry
    rw [hstop]
    omega
  · have := runRetryAux_waits_length summarizeRequestRetryPolicy outcomes rand 10 1
      (by omega)
    unfold runRetry
    rw [hstop]
    omega
  · intro k hk1 hka
    unfold runRetry at hka
    rw [hstop] at hka
    exact runRetryAux_earlier_retryable summarizeRequestRetryPolicy outcomes rand 10 1 k
      hk1 hka
  · intro k e hk1 hk10 hearlier houtk hnr
    unfold runRetry
    rw [hstop]
    exact runRetryAux_propagates summarizeRequestRetryPolicy outcomes rand 10 1 k e
      (by omega) hk1 (by omega) (fun m2 h1 h2 => hearlier m2 h1 h2) houtk hnr
  · intro i hi
    unfold runRetry at hi ⊢
    rw [hstop] at hi ⊢
    rw [runRetryAux_waits_getD summarizeRequestRetryPolicy outcomes rand 10 1 i hi]
    unfold waitRandomExponential
    have hmul : summarizeRequestRetryPolicy.multiplier = 1 / 2 := by norm_num [summarizeRequestRetryPolicy]
    have hmax : summarizeRequestRetryPolicy.maxWait = 60 := rfl
    rw [hmul, hmax]
    have h1i : 1 + i = i + 1 := by omega
    rw [h1i]
    obtain ⟨hr0, hr1⟩ := hrand (i + 1)
    have hMnn : (0 : ℚ) ≤ min ((1 / 2) * 2 ^ (i + 1)) 60 := by
      apply le_min
      · positivity
      · norm_num
    constructor
    · exact mul_nonneg hr0 hMnn
    · exact mul_le_of_le_one_left hMnn hr1

/-- C4 witness: a non-retryable failure on the first attempt propagates
immediately under both decorators, with no sleeps. -/
theorem retry_policy_contract_witness :
    ((runRetry summarizeRequestRetryPolicy
        (fun _ => (Except.error (LLMError.other "boom") : Except LLMError Nat))
        (fun _ => 0)).result = Except.error (LLMError.other "boom") ∧
      (runRetry summarizeRequestRetryPolicy
        (fun _ => (Except.error (LLMError.other "boom") : Except LLMError Nat))
        (fun _ => 0)).attempts = 1) := by
  have h := retry_policy_contract
    (fun _ => (Except.error (LLMError.other "boom") : Except LLMError Nat))
    (fun _ => 0) (fun _ => ⟨le_refl 0, zero_le_one⟩)
    summarizeRequestRetryPolicy (Or.inl rfl)
  exact h.2.2.2.1 1 (LLMError.other "boom") (by omega) (by omega)
    (fun j h1 h2 => absurd h2 (by omega)) rfl rfl

/-- Indexing into a replicated list yields the replicated element. -/
theorem replicate_getD (a d : α) : ∀ (n i : Nat), i < n →
    (List.replicate n a).getD i d = a := by
  intro n
  induction n with
  | zero => intro i hi; omega
  | succ n2 ih =>
    intro i hi
    cases i with
    | zero => simp [List.replicate]
    | succ j =>
      simp only [List.replicate, List.getD_cons_succ]
      exact ih j (by omega)

/-- The grouping partitions the item list: flattening the groups gives
back the original list. -/
theorem groupBySortedKey_flatten :
    ∀ items : List (TitleItem P), (groupBySortedKey items).flatten = items
  | [] => by simp [groupBySortedKey]
  | x :: xs => by
    rw [groupBySortedKey]
    simp only [List.flatten_cons]
    rw [groupBySortedKey_flatten (xs.dropWhile (fun y => y.clusterId == x.clusterId))]
    simp [List.takeWhile_append_dropWhile]
termination_by items => items.length
decreasing_by exact Nat.lt_succ_of_le (dropWhile_length_le _ _)

/-- Unfolding of `computeTitles` on a nonempty list: the first run's
title replicated over the run, followed by the titles of the rest. -/
theorem computeTitles_cons [LinearOrder P] [Zero P]
    (f : List (String × P) → String) (x : TitleItem P) (xs : List (TitleItem P)) :
    computeTitles f (x :: xs) =
      List.replicate (x :: xs.takeWhile (fun y => y.clusterId == x.clusterId)).length
        (if (rankedDocs (x :: xs.takeWhile (fun y => y.clusterId == x.clusterId))).isEmpty
         then none
         else some (f (rankedDocs (x :: xs.takeWhile (fun y => y.clusterId == x.clusterId))))) ++
      computeTitles f (xs.dropWhile (fun y => y.clusterId == x.clusterId)) := by
  unfold computeTitles
  rw [groupBySortedKey]
  simp

/-- `_compute_titles` yields exactly one title per input item. -/
theorem computeTitles_length [LinearOrder P] [Zero P]
    (f : List (String × P) → String) (items : List (TitleItem P)) :
    (computeTitles f items).length = items.length := by
  unfold computeTitles
  rw [List.length_flatten, List.map_map]
  have h1 : ((groupBySortedKey items).map
      (List.length ∘ fun g =>
        List.replicate g.length
          (if (rankedDocs g).isEmpty then none else some (f (rankedDocs g))))) =
      (groupBySortedKey items).map List.length := by
    apply List.map_congr_left
    intro g _
    simp
  rw [h1]
  have h2 := congrArg List.length (groupBySortedKey_flatten items)
  rw [List.length_flatten] at h2
  exact h2

/-- The title at position `i` is `None` exactly when the ranked document
list of the group containing `i` is empty, and otherwise the topic
function's output on that ranked list. -/
theorem computeTitles_getD_pos [LinearOrder P] [Zero P]
    (f : List (String × P) → String) :
    ∀ (items : List (TitleItem P)) (i : Nat), i < items.length →
      (computeTitles f items).getD i none =
        (if (rankedDocs (groupOfIdx items i)).isEmpty then none
         else some (f (rankedDocs (groupOfIdx items i))))
  | [], i, hi => absurd hi (by simp)
  | x :: xs, i, hi => by
    have hsplit := congrArg List.length
      (List.takeWhile_append_dropWhile (p := fun y => y.clusterId == x.clusterId) (l := xs))
    rw [List.length_append] at hsplit
    rw [computeTitles_cons, groupOfIdx]
    by_cases hig : i < (x :: xs.takeWhile (fun y => y.clusterId == x.clusterId)).length
    · rw [if_pos hig]
      rw [List.getD_append _ _ _ _ (by simpa using hig)]
      rw [replicate_getD _ _ _ _ hig]
    · rw [if_neg hig]
      rw [List.getD_append_right _ _ _ _ (by simpa using Nat.le_of_not_lt hig)]
      simp only [List.length_replicate]
      exact computeTitles_getD_pos f (xs.dropWhile (fun y => y.clusterId == x.clusterId))
        (i - (x :: xs.takeWhile (fun y => y.clusterId == x.clusterId)).length)
        (by simp at hi hig ⊢; omega)
termination_by items _ _ => items.length
decreasing_by exact Nat.lt_succ_of_le (dropWhile_length_le _ _)

/-- The first element surviving `dropWhile` fails the predicate. -/
theorem dropWhile_cons_head_false (p : α → Bool) :
    ∀ (l : List α) (y : α) (ys : List α), l.dropWhile p = y :: ys → p y = false := by
  intro l
  induction l with
  | nil =>
    intro y ys h
    simp [List.dropWhile] at h
  | cons a as ih =>
    intro y ys h
    by_cases hp : p a
    · rw [List.dropWhile_cons, if_pos hp] at h
      exact ih y ys h
    · rw [List.dropWhile_cons, if_neg hp] at h
      injection h with h1 h2
      subst h1
      simpa using hp

/-- The item at position `i` belongs to the group `groupOfIdx` selects
for `i`, and every member of that group carries that item's cluster
id. -/
theorem groupOfIdx_mem_key (d : TitleItem P) :
    ∀ (items : List (TitleItem P)) (i : Nat), i < items.length →
      items.getD i d ∈ groupOfIdx items i ∧
      ∀ a ∈ groupOfIdx items i, a.clusterId = (items.getD i d).clusterId
  | [], i, hi => absurd hi (by simp)
  | x :: xs, i, hi => by
    have hx : (x :: xs) =
        (x :: xs.takeWhile (fun y => y.clusterId == x.clusterId)) ++
          xs.dropWhile (fun y => y.clusterId == x.clusterId) := by
      simp [List.takeWhile_append_dropWhile]
    rw [groupOfIdx]
    by_cases hig : i < (x :: xs.takeWhile (fun y => y.clusterId == x.clusterId)).length
    · rw [if_pos hig]
      have hget : (x :: xs).getD i d ∈
          x :: xs.takeWhile (fun y => y.clusterId == x.clusterId) := by
        cases i with
        | zero => simp
        | succ j =>
          have hj : j < (xs.takeWhile (fun y => y.clusterId == x.clusterId)).length := by
            simpa using hig
          have hxeq : xs.getD j d =
              (xs.takeWhile (fun y => y.clusterId == x.clusterId)).getD j d := by
            conv_lhs => rw [show xs =
              xs.takeWhile (fun y => y.clusterId == x.clusterId) ++
                xs.dropWhile (fun y => y.clusterId == x.clusterId) from
              (List.takeWhile_append_dropWhile _ _).symm]
            rw [List.getD_append _ _ _ _ hj]
          rw [List.getD_cons_succ, hxeq]
          rw [List.getD_eq_getElem _ _ hj]
          exact List.mem_cons_of_mem _ (List.getElem_mem hj)
      have hkeys : ∀ a ∈ x :: xs.takeWhile (fun y => y.clusterId == x.clusterId),
          a.clusterId = x.clusterId := by
        intro a ha
        rcases List.mem_cons.mp ha with rfl | ha2
        · rfl
        · have := List.mem_takeWhile_imp ha2
          simpa using this
      refine ⟨hget, ?_⟩
      intro a ha
      rw [hkeys a ha, ← hkeys _ hget]
    · rw [if_neg hig]
      have hgd : (x :: xs).getD i d =
          (xs.dropWhile (fun y => y.clusterId == x.clusterId)).getD
            (i - (x :: xs.takeWhile (fun y => y.clusterId == x.clusterId)).length) d := by
        conv_lhs => rw [hx]
        rw [List.getD_append_right _ _ _ _ (Nat.le_of_not_lt hig)]
      rw [hgd]
      have hsplit := congrArg List.length
        (List.takeWhile_append_dropWhile (p := fun y => y.clusterId == x.clusterId) (l := xs))
      rw [List.length_append] at hsplit
      exact groupOfIdx_mem_key d (xs.dropWhile (fun y => y.clusterId == x.clusterId))
        (i - (x :: xs.takeWhile (fun y => y.clusterId == x.clusterId)).length)
        (by simp at hi hig ⊢; omega)
termination_by items _ _ => items.length
decreasing_by exact Nat.lt_succ_of_le (dropWhile_length_le _ _)

/-- Two positions lying in one run of equal cluster ids select the same
group. -/
theorem groupOfIdx_run_eq (d : TitleItem P) :
    ∀ (items : List (TitleItem P)) (i j : Nat), i ≤ j → j < items.length →
      (∀ k, i ≤ k → k ≤ j →
        (items.getD k d).clusterId = (items.getD i d).clusterId) →
      groupOfIdx items i = groupOfIdx items j
  | [], _, j, _, hj, _ => absurd hj (by simp)
  | x :: xs, i, j, hij, hj, hrun => by
    have hx : (x :: xs) =
        (x :: xs.takeWhile (fun y => y.clusterId == x.clusterId)) ++
          xs.dropWhile (fun y => y.clusterId == x.clusterId) := by
      simp [List.takeWhile_append_dropWhile]
    have hsplit := congrArg List.length
      (List.takeWhile_append_dropWhile (p := fun y => y.clusterId == x.clusterId) (l := xs))
    rw [List.length_append] at hsplit
    by_cases hjg : j < (x :: xs.takeWhile (fun y => y.clusterId == x.clusterId)).length
    · have hig : i < (x :: xs.takeWhile (fun y => y.clusterId == x.clusterId)).length :=
        Nat.lt_of_le_of_lt hij hjg
      rw [groupOfIdx, groupOfIdx, if_pos hig, if_pos hjg]
    · by_cases hig : i < (x :: xs.takeWhile (fun y => y.clusterId == x.clusterId)).length
      · exfalso
        have hkeyi : ((x :: xs).getD i d).clusterId = x.clusterId := by
          obtain ⟨hmem, hkeys⟩ := groupOfIdx_mem_key d (x :: xs) i (Nat.lt_of_le_of_lt hij hj)
          rw [groupOfIdx, if_pos hig] at hkeys
          exact (hkeys x (List.mem_cons_self _ _)).symm
        have hlenlist : (x :: xs).length =
            (x :: xs.takeWhile (fun y => y.clusterId == x.clusterId)).length +
              (xs.dropWhile (fun y => y.clusterId == x.clusterId)).length := by
          simp only [List.length_cons]
          omega
        cases hdw : xs.dropWhile (fun y => y.clusterId == x.clusterId) with
        | nil =>
          rw [hdw] at hlenlist
          simp only [List.length_nil, Nat.add_zero] at hlenlist
          omega
        | cons y ys =>
          have hpy := dropWhile_cons_head_false
            (fun y2 => y2.clusterId == x.clusterId) xs y ys hdw
          have hyne : y.clusterId ≠ x.clusterId := by simpa using hpy
          have hgn : (x :: xs).getD
              (x :: xs.takeWhile (fun y => y.clusterId == x.clusterId)).length d = y := by
            conv_lhs => rw [hx]
            rw [List.getD_append_right _ _ _ _ (Nat.le_refl _)]
            rw [Nat.sub_self, hdw]
            rfl
          have hk := hrun (x :: xs.takeWhile (fun y => y.clusterId == x.clusterId)).length
            (by omega) (by omega)
          rw [hgn, hkeyi] at hk
          exact hyne hk
      · rw [groupOfIdx, groupOfIdx, if_neg hig, if_neg hjg]
        have hni : (x :: xs.takeWhile (fun y => y.clusterId == x.clusterId)).length ≤ i :=
          Nat.le_of_not_lt hig
        have hnj : (x :: xs.takeWhile (fun y => y.clusterId == x.clusterId)).length ≤ j :=
          Nat.le_of_not_lt hjg
        have hlenlist : (x :: xs).length =
            (x :: xs.takeWhile (fun y => y.clusterId == x.clusterId)).length +
              (xs.dropWhile (fun y => y.clusterId == x.clusterId)).length := by
          simp only [List.length_cons]
          omega
        have hsh : ∀ k2, (xs.dropWhile (fun y => y.clusterId == x.clusterId)).getD k2 d =
            (x :: xs).getD
              (k2 + (x :: xs.takeWhile (fun y => y.clusterId == x.clusterId)).length) d := by
          intro k2
          conv_rhs => rw [hx]
          rw [List.getD_append_right _ _ _ _ (by omega)]
          congr 1
          omega
        apply groupOfIdx_run_eq d (xs.dropWhile (fun y => y.clusterId == x.clusterId))
          (i - (x :: xs.takeWhile (fun y => y.clusterId == x.clusterId)).length)
          (j - (x :: xs.takeWhile (fun y => y.clusterId == x.clusterId)).length)
          (by omega) (by omega)
        intro k hk1 hk2
        rw [hsh k, hsh (i - (x :: xs.takeWhile (fun y => y.clusterId == x.clusterId)).length)]
        have h1 := hrun
          (k + (x :: xs.takeWhile (fun y => y.clusterId == x.clusterId)).length)
          (by omega) (by omega)
        have h2 := hrun
          (i - (x :: xs.takeWhile (fun y => y.clusterId == x.clusterId)).length +
            (x :: xs.takeWhile (fun y => y.clusterId == x.clusterId)).length)
          (by omega) (by omega)
        rw [h1, h2]
termination_by items _ _ _ _ _ => items.length
decreasing_by exact Nat.lt_succ_of_le (dropWhile_length_le _ _)

/-- Stable descending insertion adds no new elements. -/
theorem mem_insertDescBySnd [LinearOrder P] (x a : String × P) :
    ∀ l, a ∈ insertDescBySnd x l → a = x ∨ a ∈ l := by
  intro l
  induction l with
  | nil =>
    intro h
    simp [insertDescBySnd] at h
    exact Or.inl h
  | cons y ys ih =>
    intro h
    rw [insertDescBySnd] at h
    by_cases hc : y.2 < x.2
    · rw [if_pos hc] at h
      rcases List.mem_cons.mp h with rfl | h2
      · exact Or.inl rfl
      · exact Or.inr h2
    · rw [if_neg hc] at h
      rcases List.mem_cons.mp h with rfl | h2
      · exact Or.inr (List.mem_cons_self _ _)
      · rcases ih h2 with h3 | h3
        · exact Or.inl h3
        · exact Or.inr (List.mem_cons_of_mem _ h3)

/-- The descending sort adds no new elements. -/
theorem mem_sortDescBySnd [LinearOrder P] (a : String × P) :
    ∀ l, a ∈ sortDescBySnd l → a ∈ l := by
  intro l
  induction l with
  | nil =>
    intro h
    simp [sortDescBySnd] at h
  | cons y ys ih =>
    intro h
    rw [sortDescBySnd] at h
    rcases mem_insertDescBySnd y a _ h with rfl | h2
    · exact List.mem_cons_self _ _
    · exact List.mem_cons_of_mem _ (ih h2)

/-- Every pair in a group's ranked document list comes from a member of
the group with that exact nonempty text, that exact nonzero membership
probability, and a nonnegative cluster id. -/
theorem rankedDocs_mem [LinearOrder P] [Zero P] (g : List (TitleItem P))
    (q : String × P) (hq : q ∈ rankedDocs g) :
    ∃ it ∈ g, it.text = some q.1 ∧ q.1 ≠ "" ∧ it.membership = q.2 ∧ q.2 ≠ 0 ∧
      0 ≤ it.clusterId := by
  unfold rankedDocs at hq
  have h1 := mem_sortDescBySnd q _ hq
  have h2 := List.mem_dedup.mp h1
  unfold rankedDocsFilter at h2
  obtain ⟨it, hit, hf⟩ := List.mem_filterMap.mp h2
  refine ⟨it, hit, ?_⟩
  by_cases hcid : it.clusterId < 0
  · rw [if_pos hcid] at hf
    exact absurd hf (by simp)
  · rw [if_neg hcid] at hf
    cases htext : it.text with
    | none =>
      rw [htext] at hf
      simp at hf
    | some t =>
      rw [htext] at hf
      dsimp only at hf
      by_cases hemp : t.isEmpty
      · rw [if_pos hemp] at hf
        simp at hf
      · rw [if_neg hemp] at hf
        by_cases hmem0 : it.membership = 0
        · rw [if_pos hmem0] at hf
          simp at hf
        · rw [if_neg hmem0] at hf
          have hqe : (t, it.membership) = q := by simpa using hf
          subst hqe
          refine ⟨by simp [htext], ?_, rfl, hmem0, by omega⟩
          intro he
          simp only [] at he
          rw [he] at hemp
          exact hemp rfl

/-- A group whose members all carry a negative cluster id contributes an
empty ranked document list. -/
theorem rankedDocs_nil_of_neg [LinearOrder P] [Zero P] (g : List (TitleItem P))
    (h : ∀ a ∈ g, a.clusterId < 0) : rankedDocs g = [] := by
  unfold rankedDocs rankedDocsFilter
  have hf : (g.filterMap fun item =>
      if item.clusterId < 0 then none
      else
        match item.text with
        | none => none
        | some t =>
          if t.isEmpty then none
          else if item.membership = 0 then none
          else some (t, item.membership)) = [] :=
    List.filterMap_eq_nil_iff.mpr (fun a ha => by rw [if_pos (h a ha)])
  rw [hf]
  rfl

/-- C5: `_compute_titles` yields exactly one title per input item, in
input order; within each cluster-id run the single computed title is
broadcast to every row of the run; items with empty text, zero
membership probability, or negative cluster id are excluded from the
ranked document list passed to the topic function; and a position's
title is null exactly when its group's ranked list is empty — in
particular every group with a negative cluster id receives a null
title. -/
theorem compute_titles_contract [LinearOrder P] [Zero P]
    (topicFn : List (String × P) → String) (items : List (TitleItem P))
    (d : TitleItem P) :
    (computeTitles topicFn items).length = items.length ∧
    (∀ i j, i ≤ j → j < items.length →
      (∀ k, i ≤ k → k ≤ j →
        (items.getD k d).clusterId = (items.getD i d).clusterId) →
      (computeTitles topicFn items).getD i none =
        (computeTitles topicFn items).getD j none) ∧
    (∀ i, i < items.length → (items.getD i d).clusterId < 0 →
      (computeTitles topicFn items).getD i none = none) ∧
    (∀ i, i < items.length →
      ((computeTitles topicFn items).getD i none = none ↔
        rankedDocs (groupOfIdx items i) = [])) ∧
    (∀ g ∈ groupBySortedKey items, ∀ q ∈ rankedDocs g,
      ∃ it ∈ g, it.text = some q.1 ∧ q.1 ≠ "" ∧ it.membership = q.2 ∧ q.2 ≠ 0 ∧
        0 ≤ it.clusterId) := by
  refine ⟨computeTitles_length topicFn items, ?_, ?_, ?_, ?_⟩
  · intro i j hij hj hrun
    have hi : i < items.length := Nat.lt_of_le_of_lt hij hj
    rw [computeTitles_getD_pos topicFn items i hi,
        computeTitles_getD_pos topicFn items j hj,
        groupOfIdx_run_eq d items i j hij hj hrun]
  · intro i hi hneg
    rw [computeTitles_getD_pos topicFn items i hi]
    have hnil : rankedDocs (groupOfIdx items i) = [] := by
      apply rankedDocs_nil_of_neg
      intro a ha
      obtain ⟨hmem, hkeys⟩ := groupOfIdx_mem_key d items i hi
      rw [hkeys a ha]
      exact hneg
    rw [hnil]
    rfl
  · intro i hi
    rw [computeTitles_getD_pos topicFn items i hi]
    by_cases he : rankedDocs (groupOfIdx items i) = []
    · simp [he]
    · simp [he]
  · intro g hg q hq
    exact rankedDocs_mem g q hq

/-- C5 witness: on the concrete three-item list, one title per item, the
title is shared across the first run, and the noise item's title is
null. -/
theorem compute_titles_contract_witness :
    (computeTitles topicFnTest titleItemsTest).length = 3 ∧
    (computeTitles topicFnTest titleItemsTest).getD 0 none =
      (computeTitles topicFnTest titleItemsTest).getD 1 none ∧
    (computeTitles topicFnTest titleItemsTest).getD 2 none = none := by
  have h := compute_titles_contract topicFnTest titleItemsTest
    { text := none, clusterId := 0, membership := 0 }
  refine ⟨?_, ?_, ?_⟩
  · rw [h.1]
    rfl
  · refine h.2.1 0 1 (by omega) (by decide) ?_
    intro k h1 h2
    rcases k with _ | _ | k
    · rfl
    · rfl
    · omega
  · exact h.2.2.1 2 (by decide) (by decide)

end Lilac
